import Mathlib

/-!
Verification of the bittwiddler pattern/fragment codec core (rqou/openfpga).

The development shallowly embeds:
* the hand-written `BitPattern` implementation for `bool` and the generic
  `docs_as_ascii_table` renderer (`src/bittwiddler/src/bitpattern.rs`);
* the code generated by the `#[bitfragment]` macro for pattern fields
  (`src/bittwiddler_macros/src/bitfragment.rs`): coordinate resolution,
  grid writes on encode, local-buffer construction on decode, and error
  propagation;
* the `BitFragment<JedLarge>` runtime dispatch for `XC2Macrocell`
  (`src/xc2bit/src/mc.rs`);
* the variant-table semantics of the `#[bitpattern]` macro.  That macro's
  implementation is not part of the inspected sources (only its callers and
  the trait are), so its encode/decode are modelled from the specification
  text and instantiated at the variant tables declared in the sources.
-/

namespace Bittwiddler

/-! ## Pattern codec

A variant's canonical bit-string over the alphabet 0/1/x is represented as a
`List (Option Bool)`: `some b` is a concrete bit, `none` is the wildcard
(`x` or `X` in the source strings). -/

/-- Error kind raised by pattern decode when no variant's bit-string is
consistent with the supplied bits. -/
inductive ErrKind where
  | noMatchingVariant
deriving DecidableEq

/-- Decidable equality for `Except` results, used to settle concrete
decode outcomes by evaluation. -/
instance {ε α : Type} [DecidableEq ε] [DecidableEq α] :
    DecidableEq (Except ε α) := fun x y =>
  match x, y with
  | .ok a, .ok b =>
    if h : a = b then .isTrue (congrArg Except.ok h)
    else .isFalse (fun he => h (Except.ok.inj he))
  | .error e, .error f =>
    if h : e = f then .isTrue (congrArg Except.error h)
    else .isFalse (fun he => h (Except.error.inj he))
  | .ok _, .error _ => .isFalse (fun he => Except.noConfusion he)
  | .error _, .ok _ => .isFalse (fun he => Except.noConfusion he)

/-- Modelled from the spec: "a variant matches iff every non-wildcard
character of its bit-string equals the corresponding supplied bit"
(the `#[bitpattern]` macro implementation is not among the inspected
sources).  A non-wildcard character with no corresponding supplied bit
cannot match. -/
def patMatches : List (Option Bool) → List Bool → Bool
  | [], _ => true
  | _ :: _, [] => false
  | c :: cs, b :: bs =>
    (match c with
     | none => true
     | some v => v == b) && patMatches cs bs

/-- Declaration-order scan: index of the first variant whose bit-string
matches the supplied bits. -/
def firstMatchIdx : List (List (Option Bool)) → List Bool → Option Nat
  | [], _ => none
  | p :: ps, bits =>
    if patMatches p bits then some 0
    else (firstMatchIdx ps bits).map (· + 1)

/-- Modelled from the spec: pattern decode "scans variants in declaration
order", "returns the first matching variant", and "fails with
`NoMatchingVariant` if no variant matches". -/
def patDecode (variants : List (List (Option Bool))) (bits : List Bool) :
    Except ErrKind Nat :=
  match firstMatchIdx variants bits with
  | some i => .ok i
  | none => .error .noMatchingVariant

/-- Modelled from the spec: pattern encode "returns the canonical bit vector
for the value's variant, with wildcard positions in that variant's
bit-string resolved to a fixed concrete value".  The concrete value chosen
for a wildcard is left open by the spec, so it is a parameter `fill` here;
the theorems below hold for every choice. -/
def patEncode (variants : List (List (Option Bool))) (v : Nat) (fill : Bool) :
    List Bool :=
  (variants.getD v []).map (fun c => c.getD fill)

/-! ### Variant tables declared in the sources -/

/-- Variant bit-strings of `bool`: `["0", "1"]`
(`src/bittwiddler/src/bitpattern.rs`, `variantbits`). -/
def boolBits : List (List (Option Bool)) :=
  [[some false], [some true]]

/-- Variant table of `XC2MCRegClkSrc`: `"x00" / "x10" / "x01" / "011" / "111"`
(`src/xc2bit/src/mc.rs`). -/
def xc2MCRegClkSrcBits : List (List (Option Bool)) :=
  [[none, some false, some false],
   [none, some true,  some false],
   [none, some false, some true],
   [some false, some true, some true],
   [some true,  some true, some true]]

/-- Variant table of `XC2MCRegResetSrc`: `"11" / "00" / "01" / "10"` (`src/xc2bit/src/mc.rs`). -/
def xc2MCRegResetSrcBits : List (List (Option Bool)) :=
  [[some true,  some true],
   [some false, some false],
   [some false, some true],
   [some true,  some false]]

/-- Variant table of `XC2MCRegSetSrc`: `"11" / "00" / "01" / "10"` (`src/xc2bit/src/mc.rs`). -/
def xc2MCRegSetSrcBits : List (List (Option Bool)) :=
  [[some true,  some true],
   [some false, some false],
   [some false, some true],
   [some true,  some false]]

/-- Variant table of `XC2MCRegMode`: `"00" / "01" / "10" / "11"` (`src/xc2bit/src/mc.rs`). -/
def xc2MCRegModeBits : List (List (Option Bool)) :=
  [[some false, some false],
   [some false, some true],
   [some true,  some false],
   [some true,  some true]]

/-- Variant table of `XC2MCFeedbackMode`: `"X1" / "00" / "10"` (`src/xc2bit/src/mc.rs`). -/
def xc2MCFeedbackModeBits : List (List (Option Bool)) :=
  [[none, some true],
   [some false, some false],
   [some true,  some false]]

/-- Variant table of `XC2MCXorMode`: `"00" / "11" / "10" / "01"` (`src/xc2bit/src/mc.rs`). -/
def xc2MCXorModeBits : List (List (Option Bool)) :=
  [[some false, some false],
   [some true,  some true],
   [some true,  some false],
   [some false, some true]]

/-- Variant table of `MyEnum`: `"00" / "01" / "10" / "11"`
(`src/bittwiddler/tests/basic_bitfragment_enum.rs`). -/
def myEnumBits : List (List (Option Bool)) :=
  [[some false, some false],
   [some false, some true],
   [some true,  some false],
   [some true,  some true]]

/-! ### The hand-written `impl BitPattern<()> for bool` -/

/-- Source `bool::encode` (`src/bittwiddler/src/bitpattern.rs`): `[*self]`. -/
def bool_encode (b : Bool) (_extra_data : Unit) : List Bool :=
  [b]

/-- Source `bool::decode` (`src/bittwiddler/src/bitpattern.rs`): `Ok(bits[0])`.
Rust slice indexing panics when the index is out of range, which is modelled
by the `Option` layer (`none` = panic). -/
def bool_decode (bits : List Bool) (_extra_data : Unit) :
    Option (Except Unit Bool) :=
  bits[0]?.map (fun b => Except.ok b)

/-! ## Coordinate resolver

The `#[bitfragment]` macro emits, for every dimension `dim`, the index
expression
`((offset[dim] as isize) + (if mirror[dim] {-1} else {1}) * loc) as usize`,
once on the encode path (`encode_each_dim`) and once, textually identically,
on the decode path (`decode_each_dim`).  The arithmetic is `isize`
arithmetic; the trailing `as usize` reinterprets the two's-complement value
bijectively, so the grid is indexed below by the `isize` value itself. -/

/-- Per-dimension index expression emitted on the encode path
(`bitfragment.rs`, `encode_each_dim`). -/
def encode_each_dim (offset : Int) (mirror : Bool) (loc : Int) : Int :=
  offset + (if mirror then -1 else 1) * loc

/-- Per-dimension index expression emitted on the decode path
(`bitfragment.rs`, `decode_each_dim`). -/
def decode_each_dim (offset : Int) (mirror : Bool) (loc : Int) : Int :=
  offset + (if mirror then -1 else 1) * loc

/-! ## Fragment codec (code generated by `#[bitfragment]`)

A grid (`fuses`) is externally owned N-dimensional boolean storage; it is
modelled as a total function from coordinate vectors to booleans. -/

/-- One schema entry position: either a grid coordinate vector or a constant
boolean (`bitfragment.rs`, `enum PatBitPos`). -/
inductive PatBitPos where
  | loc (locs : List Int)
  | bool (b : Bool)
deriving DecidableEq

/-- One schema entry: invert flag plus position
(`bitfragment.rs`, `struct PatBitInfo`). -/
structure PatBitInfo where
  invert : Bool
  pos : PatBitPos
deriving DecidableEq

/-- N-dimensional fuse storage, addressed by resolved coordinates. -/
def Grid : Type := List Int → Bool

/-- Point update of one grid cell. -/
def writeBit (g : Grid) (c : List Int) (v : Bool) : Grid :=
  fun x => if x = c then v else g x

/-- The full resolved coordinate: the emitted per-dimension expression for
each `dim in 0..idx_dims` (`bitfragment.rs`, encode/decode codegen). -/
def resolveCoord (idx_dims : Nat) (offset : List Int) (mirror : List Bool)
    (locs : List Int) : List Int :=
  (List.range idx_dims).map fun dim =>
    encode_each_dim (offset.getD dim 0) (mirror.getD dim false)
      (locs.getD dim 0)

/-- Encode codegen for one pattern field (`bitfragment.rs`,
`encode_each_bit`): for every `PatBitPos::Loc` entry the macro emits
`fuses[coords] = #inv_token encoded_arr[name_to_pos(bitname)];`
and emits nothing for `PatBitPos::Bool` entries. -/
def encodePatternField (idx_dims : Nat)
    (patbits : List (String × PatBitInfo)) (name_to_pos : String → Nat)
    (encoded_arr : List Bool) (fuses : Grid) (offset : List Int)
    (mirror : List Bool) : Grid :=
  match patbits with
  | [] => fuses
  | pb :: rest =>
    encodePatternField idx_dims rest name_to_pos encoded_arr
      (match pb.2.pos with
       | .loc locs =>
         let bit := encoded_arr.getD (name_to_pos pb.1) false
         writeBit fuses (resolveCoord idx_dims offset mirror locs)
           (if pb.2.invert then !bit else bit)
       | .bool _ => fuses)
      offset mirror

/-- The coordinates actually written by `encodePatternField`: the resolved
absolute coordinates of the coordinate-valued entries. -/
def writtenCoords (idx_dims : Nat) (patbits : List (String × PatBitInfo))
    (offset : List Int) (mirror : List Bool) : List (List Int) :=
  patbits.filterMap fun pb =>
    match pb.2.pos with
    | .loc locs => some (resolveCoord idx_dims offset mirror locs)
    | .bool _ => none

/-- Decode codegen for one bit (`bitfragment.rs`, `decode_bitval`): a
coordinate entry reads the grid at the resolved coordinate,
`#inv_token fuses[coords]`; a constant entry produces `#inv_token #b` —
note that the invert token is applied to the constant as well. -/
def decodeBitVal (idx_dims : Nat) (info : PatBitInfo) (fuses : Grid)
    (offset : List Int) (mirror : List Bool) : Bool :=
  match info.pos with
  | .loc locs =>
    let v := fuses (resolveCoord idx_dims offset mirror locs)
    if info.invert then !v else v
  | .bool b =>
    if info.invert then !b else b

/-- The sequence of `decode_arr[name_to_pos(bitname)] = <decode_bitval>;`
assignments emitted for a field, applied to an accumulator buffer. -/
def setDecodeBits (idx_dims : Nat) (patbits : List (String × PatBitInfo))
    (name_to_pos : String → Nat) (fuses : Grid) (offset : List Int)
    (mirror : List Bool) (arr : List Bool) : List Bool :=
  match patbits with
  | [] => arr
  | pb :: rest =>
    setDecodeBits idx_dims rest name_to_pos fuses offset mirror
      (arr.set (name_to_pos pb.1)
        (decodeBitVal idx_dims pb.2 fuses offset mirror))

/-- Decode codegen for one pattern field (`bitfragment.rs`,
`decode_each_bit`): `let mut decode_arr = [false; num_bits];` followed by
`decode_arr[name_to_pos(bitname)] = <decode_bitval>;` for every entry. -/
def buildDecodeArr (idx_dims : Nat)
    (patbits : List (String × PatBitInfo)) (name_to_pos : String → Nat)
    (num_bits : Nat) (fuses : Grid) (offset : List Int)
    (mirror : List Bool) : List Bool :=
  setDecodeBits idx_dims patbits name_to_pos fuses offset mirror
    (List.replicate num_bits false)

/-- The resolved schema of one pattern field: its `#[pat_bits]` entries, the
pattern's name/position bijection, its `BITS_COUNT`, and its variant
bit-string table. -/
structure PatternFieldSchema where
  patbits : List (String × PatBitInfo)
  name_to_pos : String → Nat
  num_bits : Nat
  variants : List (List (Option Bool))

/-- Field decode: build the local buffer, then run the pattern decode on it
(`bitfragment.rs`, `decode_field` codegen:
`<#field_type as BitPattern<#patvar>>::decode(&decode_arr)?`). -/
def decodeField (idx_dims : Nat) (fs : PatternFieldSchema) (fuses : Grid)
    (offset : List Int) (mirror : List Bool) : Except ErrKind Nat :=
  patDecode fs.variants
    (buildDecodeArr idx_dims fs.patbits fs.name_to_pos fs.num_bits fuses
      offset mirror)

/-- The `?` propagation of the generated composite decode: fields are
decoded in declaration order and the first failure aborts the whole decode
with that field's error (`bitfragment.rs`, `decode_func_body` wrapped in
`Ok(..)` with `?` on every field). -/
def fragDecodeFields {ε α : Type} : List (Except ε α) → Except ε (List α)
  | [] => .ok []
  | .error e :: _ => .error e
  | .ok v :: fs =>
    match fragDecodeFields fs with
    | .error e => .error e
    | .ok vs => .ok (v :: vs)

/-- The per-field decode outcomes in declaration order. -/
def fieldResults (idx_dims : Nat) (fields : List PatternFieldSchema)
    (fuses : Grid) (offset : List Int) (mirror : List Bool) :
    List (Except ErrKind Nat) :=
  fields.map fun fs => decodeField idx_dims fs fuses offset mirror

/-- Generated composite decode over a list of pattern fields. -/
def fragDecode (idx_dims : Nat) (fields : List PatternFieldSchema)
    (fuses : Grid) (offset : List Int) (mirror : List Bool) :
    Except ErrKind (List Nat) :=
  fragDecodeFields (fieldResults idx_dims fields fuses offset mirror)

/-- Generated composite encode over a list of pattern fields, each field
encoding its own value (a variant index) in declaration order
(`bitfragment.rs`, `encode_fields`).  `fill` is the wildcard-resolution
convention of `patEncode`. -/
def fragEncode (idx_dims : Nat) (fields : List PatternFieldSchema)
    (vals : List Nat) (fill : Bool) (fuses : Grid) (offset : List Int)
    (mirror : List Bool) : Grid :=
  match fields, vals with
  | f :: fs, v :: vs =>
    fragEncode idx_dims fs vs fill
      (encodePatternField idx_dims f.patbits f.name_to_pos
        (patEncode f.variants v fill) fuses offset mirror)
      offset mirror
  | _, _ => fuses

/-! ## Documentation renderer (`docs_as_ascii_table`)

Transcribed from the default method body in
`src/bittwiddler/src/bitpattern.rs`. -/

/-- The introspection surface of a `BitPattern` implementation used by the
documentation renderer. -/
structure BitPatternDocs where
  bits_count : Nat
  variant_count : Nat
  pos_to_name : Nat → String
  variantname : Nat → String
  variantdesc : Nat → String
  variantbits : Nat → String

/-- Builds `n` copies of a one-character string, as pushed by the renderer's
`for _ in 0..n` push loops. -/
def repeatStr (s : String) : Nat → String
  | 0 => ""
  | n + 1 => repeatStr s n ++ s

/-- The `max_name_len` computation: running maximum of the variant name lengths
(`bitpattern.rs` lines 50-56). -/
def maxNameLen (P : BitPatternDocs) : Nat :=
  (List.range P.variant_count).foldl
    (fun m i =>
      if (P.variantname i).length > m then (P.variantname i).length else m)
    0

/-- The `max_desc_len` computation (`bitpattern.rs` lines 58-64). -/
def maxDescLen (P : BitPatternDocs) : Nat :=
  (List.range P.variant_count).foldl
    (fun m i =>
      if (P.variantdesc i).length > m then (P.variantdesc i).length else m)
    0

/-- One data row (`bitpattern.rs` lines 91-101): bit-string, `" | "`, the
variant name followed by `max_name_len - len` pad spaces, `" | "`, the
description, newline. -/
def dataRow (P : BitPatternDocs) (i : Nat) : String :=
  P.variantbits i ++ " | " ++ P.variantname i ++
    repeatStr " " (maxNameLen P - (P.variantname i).length) ++ " | " ++
    P.variantdesc i ++ "\n"

/-- The full table (`bitpattern.rs` lines 46-104): header line, separator
line, one data row per variant. -/
def docs_as_ascii_table (P : BitPatternDocs) : String :=
  String.join ((List.range P.bits_count).map P.pos_to_name) ++ " | " ++
    repeatStr " " (maxNameLen P) ++ " |\n" ++
  repeatStr "-" P.bits_count ++ "-+-" ++ repeatStr "-" (maxNameLen P) ++
    "-+-" ++ repeatStr "-" (maxDescLen P) ++ "\n" ++
  String.join ((List.range P.variant_count).map (dataRow P))

/-- Follows the spec claim's words, for comparison with `dataRow`: the
variant name LEFT-padded with spaces to the longest name length (shorter
names right-aligned). -/
def dataRowNameLeftPadded (P : BitPatternDocs) (i : Nat) : String :=
  P.variantbits i ++ " | " ++
    repeatStr " " (maxNameLen P - (P.variantname i).length) ++
    P.variantname i ++ " | " ++ P.variantdesc i ++ "\n"

/-- The `bool` instantiation of the introspection surface
(`src/bittwiddler/src/bitpattern.rs`, `impl BitPattern<()> for bool`).
The source's array indexing panics out of range; the renderer only indexes
in range, so a default suffices here. -/
def boolDocs : BitPatternDocs where
  bits_count := 1
  variant_count := 2
  pos_to_name := fun p => ["0"].getD p ""
  variantname := fun v => ["false", "true"].getD v ""
  variantdesc := fun v => ["false", "true"].getD v ""
  variantbits := fun v => ["0", "1"].getD v ""

/-! ## `XC2Macrocell` and the `BitFragment<JedLarge>` dispatch

The two full layouts (`JedLargeUnburied`, `JedLargeBuried`) are generated
from the `#[pat_pict]` pictures in `src/xc2bit/src/mc.rs`.  The picture
compiler itself is not among the inspected sources; per the spec (§6) each
picture cell holds a bit-name digit, `.`, or a `!`-prefixed digit
(inverted), and the cell's index is its coordinate.  The positions below
are a faithful transcription of the pictures in `mc.rs`. -/

/-- Bit names in the pictures are decimal digits whose canonical position is
the digit's value (no pattern in the sources has more than three bits). -/
def digitNameToPos (s : String) : Nat :=
  match s with
  | "0" => 0
  | "1" => 1
  | "2" => 2
  | _ => 0

/-- Modelled from the spec: the `JedLargeUnburied` layout of `XC2Macrocell`,
transcribed from the `#[pat_pict(frag_variant = JedLargeUnburied, ...)]`
pictures in `src/xc2bit/src/mc.rs`. -/
def jedLargeUnburiedFields : List PatternFieldSchema :=
  [⟨[("0", ⟨false, .loc [0]⟩), ("1", ⟨false, .loc [1]⟩),
     ("2", ⟨false, .loc [2]⟩)],
    digitNameToPos, 3, xc2MCRegClkSrcBits⟩,                     -- clk_src
   ⟨[("0", ⟨false, .loc [4]⟩)], digitNameToPos, 1, boolBits⟩,   -- clk_invert_pol
   ⟨[("0", ⟨false, .loc [3]⟩)], digitNameToPos, 1, boolBits⟩,   -- is_ddr
   ⟨[("0", ⟨false, .loc [23]⟩), ("1", ⟨false, .loc [24]⟩)],
    digitNameToPos, 2, xc2MCRegResetSrcBits⟩,                   -- r_src
   ⟨[("0", ⟨false, .loc [17]⟩), ("1", ⟨false, .loc [18]⟩)],
    digitNameToPos, 2, xc2MCRegSetSrcBits⟩,                     -- s_src
   ⟨[("0", ⟨true, .loc [19]⟩)], digitNameToPos, 1, boolBits⟩,   -- init_state (!0)
   ⟨[("0", ⟨false, .loc [21]⟩), ("1", ⟨false, .loc [22]⟩)],
    digitNameToPos, 2, xc2MCRegModeBits⟩,                       -- reg_mode
   ⟨[("0", ⟨false, .loc [6]⟩), ("1", ⟨false, .loc [7]⟩)],
    digitNameToPos, 2, xc2MCFeedbackModeBits⟩,                  -- fb_mode
   ⟨[("0", ⟨true, .loc [10]⟩)], digitNameToPos, 1, boolBits⟩,   -- ff_in_ibuf (!0)
   ⟨[("0", ⟨false, .loc [27]⟩), ("1", ⟨false, .loc [28]⟩)],
    digitNameToPos, 2, xc2MCXorModeBits⟩]                       -- xor_mode

/-- Modelled from the spec: the `JedLargeBuried` layout of `XC2Macrocell`,
transcribed from the `#[pat_pict(frag_variant = JedLargeBuried, ...)]`
pictures in `src/xc2bit/src/mc.rs`.  `ff_in_ibuf` is declared `0=false`
there: a constant-`false` bit. -/
def jedLargeBuriedFields : List PatternFieldSchema :=
  [⟨[("0", ⟨false, .loc [0]⟩), ("1", ⟨false, .loc [1]⟩),
     ("2", ⟨false, .loc [2]⟩)],
    digitNameToPos, 3, xc2MCRegClkSrcBits⟩,                     -- clk_src
   ⟨[("0", ⟨false, .loc [4]⟩)], digitNameToPos, 1, boolBits⟩,   -- clk_invert_pol
   ⟨[("0", ⟨false, .loc [3]⟩)], digitNameToPos, 1, boolBits⟩,   -- is_ddr
   ⟨[("0", ⟨false, .loc [12]⟩), ("1", ⟨false, .loc [13]⟩)],
    digitNameToPos, 2, xc2MCRegResetSrcBits⟩,                   -- r_src
   ⟨[("0", ⟨false, .loc [7]⟩), ("1", ⟨false, .loc [8]⟩)],
    digitNameToPos, 2, xc2MCRegSetSrcBits⟩,                     -- s_src
   ⟨[("0", ⟨true, .loc [9]⟩)], digitNameToPos, 1, boolBits⟩,    -- init_state (!0)
   ⟨[("0", ⟨false, .loc [10]⟩), ("1", ⟨false, .loc [11]⟩)],
    digitNameToPos, 2, xc2MCRegModeBits⟩,                       -- reg_mode
   ⟨[("0", ⟨false, .loc [5]⟩), ("1", ⟨false, .loc [6]⟩)],
    digitNameToPos, 2, xc2MCFeedbackModeBits⟩,                  -- fb_mode
   ⟨[("0", ⟨false, .bool false⟩)], digitNameToPos, 1, boolBits⟩, -- ff_in_ibuf (0=false)
   ⟨[("0", ⟨false, .loc [14]⟩), ("1", ⟨false, .loc [15]⟩)],
    digitNameToPos, 2, xc2MCXorModeBits⟩]                       -- xor_mode

/-- A macrocell value (`src/xc2bit/src/mc.rs`, `struct XC2Macrocell`);
enumeration fields are represented by their variant index. -/
structure XC2Macrocell where
  clk_src : Fin 5
  clk_invert_pol : Bool
  is_ddr : Bool
  r_src : Fin 4
  s_src : Fin 4
  init_state : Bool
  reg_mode : Fin 4
  fb_mode : Fin 3
  ff_in_ibuf : Bool
  xor_mode : Fin 4

/-- The field values of a macrocell, in declaration order, as variant
indices (`bool` variants: `false` = 0, `true` = 1). -/
def XC2Macrocell.fieldVals (mc : XC2Macrocell) : List Nat :=
  [mc.clk_src.val, cond mc.clk_invert_pol 1 0, cond mc.is_ddr 1 0,
   mc.r_src.val, mc.s_src.val, cond mc.init_state 1 0, mc.reg_mode.val,
   mc.fb_mode.val, cond mc.ff_in_ibuf 1 0, mc.xor_mode.val]

/-- Generated `BitFragment<JedLargeBuried>` encode for `XC2Macrocell`. -/
def xc2EncodeJedLargeBuried (mc : XC2Macrocell) (fill : Bool) (fuses : Grid)
    (offset : List Int) (mirror : List Bool) : Grid :=
  fragEncode 1 jedLargeBuriedFields mc.fieldVals fill fuses offset mirror

/-- Generated `BitFragment<JedLargeUnburied>` encode for `XC2Macrocell`. -/
def xc2EncodeJedLargeUnburied (mc : XC2Macrocell) (fill : Bool) (fuses : Grid)
    (offset : List Int) (mirror : List Bool) : Grid :=
  fragEncode 1 jedLargeUnburiedFields mc.fieldVals fill fuses offset mirror

/-- Generated `BitFragment<JedLargeBuried>` decode for `XC2Macrocell`;
the result is the list of decoded variant indices in field order. -/
def xc2DecodeJedLargeBuried (fuses : Grid) (offset : List Int)
    (mirror : List Bool) : Except ErrKind (List Nat) :=
  fragDecode 1 jedLargeBuriedFields fuses offset mirror

/-- Generated `BitFragment<JedLargeUnburied>` decode for `XC2Macrocell`. -/
def xc2DecodeJedLargeUnburied (fuses : Grid) (offset : List Int)
    (mirror : List Bool) : Except ErrKind (List Nat) :=
  fragDecode 1 jedLargeUnburiedFields fuses offset mirror

/-- Source `impl BitFragment<JedLarge> for XC2Macrocell`, method `encode`
(`src/xc2bit/src/mc.rs` lines 410-422): if `extra_data` (buried) forward to
the `JedLargeBuried` implementation, else to `JedLargeUnburied`. -/
def xc2EncodeJedLarge (mc : XC2Macrocell) (fuses : Grid) (offset : List Int)
    (mirror : List Bool) (extra_data : Bool) (fill : Bool) : Grid :=
  if extra_data then
    xc2EncodeJedLargeBuried mc fill fuses offset mirror
  else
    xc2EncodeJedLargeUnburied mc fill fuses offset mirror

/-- Source `impl BitFragment<JedLarge> for XC2Macrocell`, method `decode`
(`src/xc2bit/src/mc.rs` lines 424-436). -/
def xc2DecodeJedLarge (fuses : Grid) (offset : List Int)
    (mirror : List Bool) (extra_data : Bool) : Except ErrKind (List Nat) :=
  if extra_data then
    xc2DecodeJedLargeBuried fuses offset mirror
  else
    xc2DecodeJedLargeUnburied fuses offset mirror

/-! ### Small concrete schemas used to instantiate the general theorems -/

/-- The field schema of the `MyEnum` fragment
(`src/bittwiddler/tests/basic_bitfragment_enum.rs`):
`#[pat_bits("0" = 1, "1" = 2)]`. -/
def myEnumPatbits : List (String × PatBitInfo) :=
  [("0", ⟨false, .loc [1]⟩), ("1", ⟨false, .loc [2]⟩)]

/-- A two-entry schema with an inverted constant bit and a grid-read bit. -/
def invertedConstSchema : List (String × PatBitInfo) :=
  [("0", ⟨true, .bool false⟩), ("1", ⟨false, .loc [0]⟩)]

/-- A one-bit field whose pattern always decodes (the `bool` table). -/
def alwaysOkField : PatternFieldSchema :=
  ⟨[("0", ⟨false, .loc [0]⟩)], digitNameToPos, 1, boolBits⟩

/-- A one-bit field whose single variant requires a set bit, so it fails on
an all-clear grid. -/
def needsOneField : PatternFieldSchema :=
  ⟨[("0", ⟨false, .loc [1]⟩)], digitNameToPos, 1, [[some true]]⟩

/-! ## Supporting lemmas -/

/-- Character-wise matching characterisation: a bit-string matches exactly
when it is no longer than the supplied bits and every non-wildcard
character equals the corresponding supplied bit. -/
theorem patMatches_iff (p : List (Option Bool)) (bits : List Bool) :
    patMatches p bits = true ↔
      p.length ≤ bits.length ∧
        ∀ (k : Nat) (v : Bool), p[k]? = some (some v) → bits[k]? = some v := by
  induction p generalizing bits with
  | nil => simp [patMatches]
  | cons c cs ih =>
    cases bits with
    | nil =>
      simp [patMatches]
    | cons b bs =>
      cases c with
      | none =>
        rw [show patMatches (none :: cs) (b :: bs) = patMatches cs bs from rfl,
          ih]
        constructor
        · rintro ⟨hlen, hall⟩
          refine ⟨by simpa using hlen, ?_⟩
          intro k v hk
          cases k with
          | zero => simp at hk
          | succ k => simpa using hall k v (by simpa using hk)
        · rintro ⟨hlen, hall⟩
          refine ⟨by simpa using hlen, ?_⟩
          intro k v hk
          simpa using hall (k + 1) v (by simpa using hk)
      | some v =>
        rw [show patMatches (some v :: cs) (b :: bs) =
              ((v == b) && patMatches cs bs) from rfl,
          Bool.and_eq_true, beq_iff_eq, ih]
        constructor
        · rintro ⟨hv, hlen, hall⟩
          refine ⟨by simpa using hlen, ?_⟩
          intro k w hk
          cases k with
          | zero =>
            simp only [List.getElem?_cons_zero, Option.some.injEq] at hk ⊢
            subst hk
            exact hv.symm
          | succ k => simpa using hall k w (by simpa using hk)
        · rintro ⟨hlen, hall⟩
          refine ⟨?_, by simpa using hlen, ?_⟩
          · have h0 := hall 0 v (by simp)
            simp only [List.getElem?_cons_zero, Option.some.injEq] at h0
            exact h0.symm
          · intro k w hk
            simpa using hall (k + 1) w (by simpa using hk)

/-- The declaration-order scan returns index `i` exactly when variant `i`
matches and no earlier variant does. -/
theorem firstMatchIdx_eq_some_iff (variants : List (List (Option Bool)))
    (bits : List Bool) (i : Nat) :
    firstMatchIdx variants bits = some i ↔
      i < variants.length ∧ patMatches (variants.getD i []) bits = true ∧
        ∀ j, j < i → patMatches (variants.getD j []) bits = false := by
  induction variants generalizing i with
  | nil => simp [firstMatchIdx]
  | cons p ps ih =>
    by_cases hp : patMatches p bits = true
    · rw [firstMatchIdx, if_pos hp]
      constructor
      · intro h
        have hi : i = 0 := by
          simpa using (Option.some.inj h).symm
        subst hi
        exact ⟨by simp, by simpa using hp, by omega⟩
      · rintro ⟨_, _, hmin⟩
        cases i with
        | zero => rfl
        | succ i =>
          have := hmin 0 (Nat.succ_pos _)
          simp only [List.getD_cons_zero] at this
          rw [hp] at this
          cases this
    · rw [firstMatchIdx, if_neg hp]
      have hpf : patMatches p bits = false := by
        cases h : patMatches p bits
        · rfl
        · exact absurd h hp
      cases i with
      | zero =>
        simp only [Option.map_eq_some', List.getD_cons_zero]
        constructor
        · rintro ⟨a, _, ha⟩
          omega
        · rintro ⟨_, hm, _⟩
          rw [hpf] at hm
          cases hm
      | succ i =>
        simp only [Option.map_eq_some']
        constructor
        · rintro ⟨a, ha, hai⟩
          have hai' : a = i := by omega
          rw [hai'] at ha
          obtain ⟨h1, h2, h3⟩ := (ih i).mp ha
          refine ⟨by simpa using h1, by simpa using h2, ?_⟩
          intro j hj
          cases j with
          | zero => simpa using hpf
          | succ j =>
            simpa using h3 j (by omega)
        · rintro ⟨h1, h2, h3⟩
          refine ⟨i, (ih i).mpr ⟨by simpa using h1, by simpa using h2, ?_⟩,
            rfl⟩
          intro j hj
          simpa using h3 (j + 1) (by omega)

/-- The declaration-order scan fails exactly when no variant matches. -/
theorem firstMatchIdx_eq_none_iff (variants : List (List (Option Bool)))
    (bits : List Bool) :
    firstMatchIdx variants bits = none ↔
      ∀ p ∈ variants, patMatches p bits = false := by
  induction variants with
  | nil => simp [firstMatchIdx]
  | cons p ps ih =>
    by_cases hp : patMatches p bits = true
    · rw [firstMatchIdx, if_pos hp]
      simp only [List.mem_cons]
      constructor
      · intro h
        cases h
      · intro h
        have := h p (Or.inl rfl)
        rw [hp] at this
        cases this
    · rw [firstMatchIdx, if_neg hp]
      have hpf : patMatches p bits = false := by
        cases h : patMatches p bits
        · rfl
        · exact absurd h hp
      simp only [Option.map_eq_none', ih, List.mem_cons]
      constructor
      · intro h q hq
        rcases hq with hq | hq
        · rw [hq]; exact hpf
        · exact h q hq
      · intro h q hq
        exact h q (Or.inr hq)

/-- Pattern decode succeeds with `i` exactly when the scan finds `i`. -/
theorem patDecode_ok_iff (variants : List (List (Option Bool)))
    (bits : List Bool) (i : Nat) :
    patDecode variants bits = Except.ok i ↔
      firstMatchIdx variants bits = some i := by
  unfold patDecode
  cases h : firstMatchIdx variants bits <;> simp

/-- Pattern decode fails exactly when the scan finds nothing. -/
theorem patDecode_error_iff (variants : List (List (Option Bool)))
    (bits : List Bool) :
    patDecode variants bits = Except.error ErrKind.noMatchingVariant ↔
      firstMatchIdx variants bits = none := by
  unfold patDecode
  cases h : firstMatchIdx variants bits <;> simp

/-- Writing one cell leaves every other cell unchanged. -/
theorem writeBit_ne (g : Grid) (c x : List Int) (v : Bool) (h : x ≠ c) :
    writeBit g c v x = g x := by
  simp [writeBit, h]

/-- Membership in `writtenCoords` over a cons schema. -/
theorem writtenCoords_cons (idx_dims : Nat) (pb : String × PatBitInfo)
    (rest : List (String × PatBitInfo)) (offset : List Int)
    (mirror : List Bool) :
    writtenCoords idx_dims (pb :: rest) offset mirror =
      (match pb.2.pos with
       | .loc locs => [resolveCoord idx_dims offset mirror locs]
       | .bool _ => []) ++ writtenCoords idx_dims rest offset mirror := by
  cases h : pb.2.pos <;> simp [writtenCoords, h]

/-- Fold step of `setDecodeBits` preserves the buffer length. -/
theorem setDecodeBits_length (idx_dims : Nat)
    (patbits : List (String × PatBitInfo)) (name_to_pos : String → Nat)
    (fuses : Grid) (offset : List Int) (mirror : List Bool)
    (arr : List Bool) :
    (setDecodeBits idx_dims patbits name_to_pos fuses offset mirror
        arr).length = arr.length := by
  induction patbits generalizing arr with
  | nil => rfl
  | cons pb rest ih =>
    rw [setDecodeBits, ih, List.length_set]

/-- Positions assigned by no schema entry keep their buffer value. -/
theorem setDecodeBits_frame (idx_dims : Nat)
    (patbits : List (String × PatBitInfo)) (name_to_pos : String → Nat)
    (fuses : Grid) (offset : List Int) (mirror : List Bool)
    (arr : List Bool) (p : Nat)
    (h : ∀ pb ∈ patbits, name_to_pos pb.1 ≠ p) :
    (setDecodeBits idx_dims patbits name_to_pos fuses offset mirror
        arr).getD p false = arr.getD p false := by
  induction patbits generalizing arr with
  | nil => rfl
  | cons pb rest ih =>
    rw [setDecodeBits, ih _ (fun q hq => h q (List.mem_cons_of_mem _ hq))]
    have hne : name_to_pos pb.1 ≠ p := h pb (List.mem_cons_self _ _)
    simp [List.getD, List.getElem?_set_ne hne]

/-- Each schema entry's assignment survives to the final buffer when the
assigned positions are pairwise distinct and in bounds. -/
theorem setDecodeBits_getD (idx_dims : Nat)
    (patbits : List (String × PatBitInfo)) (name_to_pos : String → Nat)
    (fuses : Grid) (offset : List Int) (mirror : List Bool)
    (arr : List Bool)
    (hdist : patbits.Pairwise (fun a b => name_to_pos a.1 ≠ name_to_pos b.1))
    (hb : ∀ pb ∈ patbits, name_to_pos pb.1 < arr.length) :
    ∀ pb ∈ patbits,
      (setDecodeBits idx_dims patbits name_to_pos fuses offset mirror
          arr).getD (name_to_pos pb.1) false =
        decodeBitVal idx_dims pb.2 fuses offset mirror := by
  induction patbits generalizing arr with
  | nil =>
    intro pb hpb
    cases hpb
  | cons pb rest ih =>
    intro q hq
    rcases List.mem_cons.mp hq with hq | hq
    · subst hq
      rw [setDecodeBits]
      rw [setDecodeBits_frame]
      · have hlt : name_to_pos q.1 < arr.length :=
          hb q (List.mem_cons_self _ _)
        simp [List.getD, List.getElem?_set_self hlt]
      · intro r hr
        exact ((List.pairwise_cons.mp hdist).1 r hr).symm
    · rw [setDecodeBits]
      refine ih _ (List.pairwise_cons.mp hdist).2 ?_ q hq
      intro r hr
      rw [List.length_set]
      exact hb r (List.mem_cons_of_mem _ hr)

/-- Out-of-schema grid cells are untouched by a pattern-field encode. -/
theorem encodePatternField_frame (idx_dims : Nat)
    (patbits : List (String × PatBitInfo)) (name_to_pos : String → Nat)
    (encoded_arr : List Bool) (fuses : Grid) (offset : List Int)
    (mirror : List Bool) (c : List Int)
    (h : c ∉ writtenCoords idx_dims patbits offset mirror) :
    encodePatternField idx_dims patbits name_to_pos encoded_arr fuses
      offset mirror c = fuses c := by
  induction patbits generalizing fuses with
  | nil => rfl
  | cons pb rest ih =>
    rw [writtenCoords_cons, List.mem_append] at h
    rw [encodePatternField]
    cases hp : pb.2.pos with
    | loc locs =>
      rw [ih _ (fun hm => h (Or.inr hm))]
      rw [hp] at h
      have hc : c ≠ resolveCoord idx_dims offset mirror locs := by
        intro he
        exact h (Or.inl (by simp [he]))
      exact writeBit_ne _ _ _ _ hc
    | bool b =>
      exact ih _ (fun hm => h (Or.inr hm))

/-- Sequencing with the question-mark operator: the first failing field's
error is the composite result when all earlier fields succeed. -/
theorem fragDecodeFields_error {ε α : Type} (l : List (Except ε α))
    (i : Nat) (e : ε) (h : l[i]? = some (.error e))
    (hok : ∀ j, j < i → ∃ v, l[j]? = some (.ok v)) :
    fragDecodeFields l = .error e := by
  induction l generalizing i with
  | nil => simp at h
  | cons f fs ih =>
    cases i with
    | zero =>
      simp only [List.getElem?_cons_zero, Option.some.injEq] at h
      subst h
      rfl
    | succ i =>
      obtain ⟨v, hv⟩ := hok 0 (Nat.succ_pos _)
      simp only [List.getElem?_cons_zero, Option.some.injEq] at hv
      subst hv
      rw [fragDecodeFields,
        ih i (by simpa using h)
          (fun j hj => by simpa using hok (j + 1) (by omega))]

/-- Sequencing with the question-mark operator: when every field succeeds,
the composite succeeds. -/
theorem fragDecodeFields_ok {ε α : Type} (l : List (Except ε α))
    (hok : ∀ j, j < l.length → ∃ v, l[j]? = some (.ok v)) :
    ∃ vs, fragDecodeFields l = .ok vs := by
  induction l with
  | nil => exact ⟨[], rfl⟩
  | cons f fs ih =>
    obtain ⟨v, hv⟩ := hok 0 (by simp)
    simp only [List.getElem?_cons_zero, Option.some.injEq] at hv
    subst hv
    obtain ⟨vs, hvs⟩ :=
      ih (fun j hj => by simpa using hok (j + 1) (by simpa using hj))
    exact ⟨v :: vs, by rw [fragDecodeFields, hvs]⟩

/-- Length of a repeated one-character string. -/
theorem repeatStr_length (s : String) (n : Nat) :
    (repeatStr s n).length = n * s.length := by
  induction n with
  | zero => simp [repeatStr]
  | succ n ih =>
    rw [repeatStr, String.length_append, ih]
    ring

/-! ## Claims -/

/-- C1: for every Pattern Codec declared in the sources and every declared
variant `v`, decoding the full canonical bit vector produced by encoding
`v` round-trips, for every wildcard-fill convention; in particular the
`bool` pattern round-trips for both values. -/
theorem c1_pattern_roundtrip :
    (∀ b : Bool, bool_decode (bool_encode b ()) () = some (Except.ok b)) ∧
    (∀ (fill : Bool) (v : Fin 2),
      patDecode boolBits (patEncode boolBits v.val fill) =
        Except.ok v.val) ∧
    (∀ (fill : Bool) (v : Fin 5),
      patDecode xc2MCRegClkSrcBits
        (patEncode xc2MCRegClkSrcBits v.val fill) = Except.ok v.val) ∧
    (∀ (fill : Bool) (v : Fin 4),
      patDecode xc2MCRegResetSrcBits
        (patEncode xc2MCRegResetSrcBits v.val fill) = Except.ok v.val) ∧
    (∀ (fill : Bool) (v : Fin 4),
      patDecode xc2MCRegSetSrcBits
        (patEncode xc2MCRegSetSrcBits v.val fill) = Except.ok v.val) ∧
    (∀ (fill : Bool) (v : Fin 4),
      patDecode xc2MCRegModeBits
        (patEncode xc2MCRegModeBits v.val fill) = Except.ok v.val) ∧
    (∀ (fill : Bool) (v : Fin 3),
      patDecode xc2MCFeedbackModeBits
        (patEncode xc2MCFeedbackModeBits v.val fill) = Except.ok v.val) ∧
    (∀ (fill : Bool) (v : Fin 4),
      patDecode xc2MCXorModeBits
        (patEncode xc2MCXorModeBits v.val fill) = Except.ok v.val) ∧
    (∀ (fill : Bool) (v : Fin 4),
      patDecode myEnumBits (patEncode myEnumBits v.val fill) =
        Except.ok v.val) := by
  decide

/-- C2: for every dimension, offset, mirror flag and local position, the
absolute coordinate used by fragment encode equals
`offset + (mirror then -1 else 1) * p`, and the decode path uses exactly
the same formula. -/
theorem c2_coordinate_resolver (o p : Int) (m : Bool) :
    encode_each_dim o m p = o + (if m then -1 else 1) * p ∧
    decode_each_dim o m p = o + (if m then -1 else 1) * p ∧
    decode_each_dim o m p = encode_each_dim o m p :=
  ⟨rfl, rfl, rfl⟩

/-- C3: pattern decode scans variants in declaration order — a variant
matches iff every non-wildcard character of its bit-string equals the
corresponding supplied bit, the result is the first (earliest-declared)
matching variant even when several wildcard patterns match, and decode
fails with `NoMatchingVariant` exactly when no variant matches. -/
theorem c3_decode_declaration_order (variants : List (List (Option Bool)))
    (bits : List Bool) :
    (∀ p ∈ variants,
      (patMatches p bits = true ↔
        p.length ≤ bits.length ∧
          ∀ (k : Nat) (v : Bool),
            p[k]? = some (some v) → bits[k]? = some v)) ∧
    (∀ i : Nat,
      patDecode variants bits = Except.ok i ↔
        i < variants.length ∧
          patMatches (variants.getD i []) bits = true ∧
          ∀ j : Nat, j < i →
            patMatches (variants.getD j []) bits = false) ∧
    (patDecode variants bits = Except.error ErrKind.noMatchingVariant ↔
      ∀ p ∈ variants, patMatches p bits = false) :=
  ⟨fun p _ => patMatches_iff p bits,
   fun i => (patDecode_ok_iff variants bits i).trans
     (firstMatchIdx_eq_some_iff variants bits i),
   (patDecode_error_iff variants bits).trans
     (firstMatchIdx_eq_none_iff variants bits)⟩

/-- C4: fragment encode writes only to the grid cells at the resolved
absolute coordinates of the layout's coordinate-valued PatBit entries
(`writtenCoords` contains exactly those; constant entries contribute no
coordinate), and every cell outside them keeps the caller's value. -/
theorem c4_encode_writes_only_loc_coords (idx_dims : Nat)
    (patbits : List (String × PatBitInfo)) (name_to_pos : String → Nat)
    (encoded_arr : List Bool) (fuses : Grid) (offset : List Int)
    (mirror : List Bool) (c : List Int)
    (h : c ∉ writtenCoords idx_dims patbits offset mirror) :
    encodePatternField idx_dims patbits name_to_pos encoded_arr fuses
      offset mirror c = fuses c :=
  encodePatternField_frame idx_dims patbits name_to_pos encoded_arr fuses
    offset mirror c h

/-- Witness for C4, at the offset scenario of
`basic_bitfragment_enum.rs`: encoding `Choice2` at offset 1 into an
all-true grid leaves cell 0 with the caller's value. -/
theorem c4_encode_writes_only_loc_coords_witness :
    [0] ∉ writtenCoords 1 myEnumPatbits [1] [false] ∧
    encodePatternField 1 myEnumPatbits digitNameToPos
      (patEncode myEnumBits 1 false) (fun _ => true) [1] [false] [0] =
      true :=
  ⟨by decide,
   c4_encode_writes_only_loc_coords 1 myEnumPatbits digitNameToPos
     (patEncode myEnumBits 1 false) (fun _ => true) [1] [false] [0]
     (by decide)⟩

/-- C5 counterexample: for a schema entry marked constant `false` with the
invert flag set, the local decode buffer receives `true`, not the constant
value unmodified as the claim states. -/
theorem c5_constant_invert_counterexample :
    buildDecodeArr 1 [("0", ⟨true, PatBitPos.bool false⟩)] digitNameToPos 1
        (fun _ => false) [0] [false] = [true] ∧
    buildDecodeArr 1 [("0", ⟨true, PatBitPos.bool false⟩)] digitNameToPos 1
        (fun _ => false) [0] [false] ≠ [false] := by
  exact ⟨by decide, by decide⟩

/-- C5 (amended): during fragment decode the local buffer holds, for each
bit name, the schema constant WITH the invert flag applied when the bit is
marked constant, and otherwise the grid value at the resolved absolute
coordinate with the invert flag applied. -/
theorem c5_decode_buffer_amended (idx_dims : Nat)
    (patbits : List (String × PatBitInfo)) (name_to_pos : String → Nat)
    (num_bits : Nat) (fuses : Grid) (offset : List Int) (mirror : List Bool)
    (hdist : patbits.Pairwise (fun a b => name_to_pos a.1 ≠ name_to_pos b.1))
    (hb : ∀ pb ∈ patbits, name_to_pos pb.1 < num_bits) :
    ∀ pb ∈ patbits,
      (buildDecodeArr idx_dims patbits name_to_pos num_bits fuses offset
          mirror).getD (name_to_pos pb.1) false =
        match pb.2.pos with
        | .bool b => if pb.2.invert then !b else b
        | .loc locs =>
          if pb.2.invert then
            !(fuses (resolveCoord idx_dims offset mirror locs))
          else fuses (resolveCoord idx_dims offset mirror locs) := by
  intro pb hpb
  have h := setDecodeBits_getD idx_dims patbits name_to_pos fuses offset
    mirror (List.replicate num_bits false) hdist
    (fun q hq => by simpa using hb q hq) pb hpb
  rw [buildDecodeArr, h]
  cases hp : pb.2.pos with
  | loc locs => simp [decodeBitVal, hp]
  | bool b => simp [decodeBitVal, hp]

/-- Witness for C5 (amended) on a concrete two-entry schema: the grid-read
entry at position 1 receives the grid value. -/
theorem c5_decode_buffer_amended_witness :
    List.Pairwise (fun a b => digitNameToPos a.1 ≠ digitNameToPos b.1)
      invertedConstSchema ∧
    (∀ pb ∈ invertedConstSchema, digitNameToPos pb.1 < 2) ∧
    (buildDecodeArr 1 invertedConstSchema digitNameToPos 2 (fun _ => true)
        [0] [false]).getD 1 false = true :=
  ⟨by decide, by decide,
   c5_decode_buffer_amended 1 invertedConstSchema digitNameToPos 2
     (fun _ => true) [0] [false] (by decide) (by decide)
     ("1", ⟨false, .loc [0]⟩) (by decide)⟩

/-- C6: the embedded encode is total (it produces a grid for every
well-typed input; the generated signature has no error path), and composite
decode propagates the first failing field's error unchanged: if field `i`
fails with `e` and all earlier fields succeed, the whole decode returns
exactly `e`; if every field succeeds the composite succeeds. -/
theorem c6_error_propagation (idx_dims : Nat)
    (fields : List PatternFieldSchema) (fuses : Grid) (offset : List Int)
    (mirror : List Bool) :
    (∀ (vals : List Nat) (fill : Bool), ∃ g : Grid,
      fragEncode idx_dims fields vals fill fuses offset mirror = g) ∧
    (∀ (i : Nat) (e : ErrKind),
      (fieldResults idx_dims fields fuses offset mirror)[i]? =
        some (.error e) →
      (∀ j : Nat, j < i → ∃ v : Nat,
        (fieldResults idx_dims fields fuses offset mirror)[j]? =
          some (.ok v)) →
      fragDecode idx_dims fields fuses offset mirror = .error e) ∧
    ((∀ j : Nat, j < fields.length → ∃ v : Nat,
        (fieldResults idx_dims fields fuses offset mirror)[j]? =
          some (.ok v)) →
      ∃ vs, fragDecode idx_dims fields fuses offset mirror = .ok vs) :=
  ⟨fun vals fill =>
    ⟨fragEncode idx_dims fields vals fill fuses offset mirror, rfl⟩,
   fun i e h hok => fragDecodeFields_error _ i e h hok,
   fun hok => fragDecodeFields_ok _
     (by simpa [fieldResults] using hok)⟩

/-- Witness for C6: a two-field composite whose second field fails with
`NoMatchingVariant` on an all-clear grid propagates exactly that error. -/
theorem c6_error_propagation_witness :
    (fieldResults 1 [alwaysOkField, needsOneField] (fun _ => false) [0]
        [false])[1]? = some (.error .noMatchingVariant) ∧
    fragDecode 1 [alwaysOkField, needsOneField] (fun _ => false) [0]
      [false] = .error .noMatchingVariant :=
  ⟨by decide,
   (c6_error_propagation 1 [alwaysOkField, needsOneField] (fun _ => false)
       [0] [false]).2.1 1 .noMatchingVariant (by decide)
     (fun j hj =>
       match j, hj with
       | 0, _ => ⟨0, by decide⟩
       | k + 1, hj => absurd hj (by omega))⟩

/-- C7: the `BitFragment<JedLarge>` implementation is a thin wrapper — for
every macrocell value, grid, offset and mirror, encode with `extra_data`
true/false produces exactly the `JedLargeBuried` / `JedLargeUnburied`
encode, and decode likewise forwards on the flag. -/
theorem c7_jedlarge_thin_wrapper (mc : XC2Macrocell) (fuses : Grid)
    (offset : List Int) (mirror : List Bool) (fill : Bool) :
    xc2EncodeJedLarge mc fuses offset mirror true fill =
      xc2EncodeJedLargeBuried mc fill fuses offset mirror ∧
    xc2EncodeJedLarge mc fuses offset mirror false fill =
      xc2EncodeJedLargeUnburied mc fill fuses offset mirror ∧
    xc2DecodeJedLarge fuses offset mirror true =
      xc2DecodeJedLargeBuried fuses offset mirror ∧
    xc2DecodeJedLarge fuses offset mirror false =
      xc2DecodeJedLargeUnburied fuses offset mirror :=
  ⟨rfl, rfl, rfl, rfl⟩

/-- C8: the documentation renderer applied to the 1-bit, 2-variant bool
pattern produces, byte for byte, the four-line table from the sources'
regression test. -/
theorem c8_bool_docs_exact :
    docs_as_ascii_table boolDocs =
      "0 |       |\n--+-------+------\n0 | false | false\n1 | true  | true\n" := by
  decide

/-- C9 counterexample: in the bool pattern's second data row the name is
not left-padded — the actually rendered row differs from the row built
with a left-padded (right-aligned) name. -/
theorem c9_not_left_padded_counterexample :
    dataRow boolDocs 1 ≠ dataRowNameLeftPadded boolDocs 1 := by
  decide

/-- C9 (amended): in every data row the variant name is RIGHT-padded with
spaces to the length of the longest variant name (left-aligned), the name
column being exactly that maximum width. -/
theorem c9_name_right_padded_amended (P : BitPatternDocs) (i : Nat)
    (h : (P.variantname i).length ≤ maxNameLen P) :
    ∃ s : String,
      dataRow P i =
        P.variantbits i ++ " | " ++ s ++
          (" | " ++ (P.variantdesc i ++ "\n")) ∧
      s = P.variantname i ++
        repeatStr " " (maxNameLen P - (P.variantname i).length) ∧
      s.length = maxNameLen P := by
  refine ⟨P.variantname i ++
    repeatStr " " (maxNameLen P - (P.variantname i).length), ?_, rfl, ?_⟩
  · simp [dataRow, String.append_assoc]
  · rw [String.length_append, repeatStr_length]
    have h1 : (" " : String).length = 1 := rfl
    rw [h1, Nat.mul_one]
    omega

/-- Witness for C9 (amended) at the bool pattern's second data row. -/
theorem c9_name_right_padded_amended_witness :
    ("true".length ≤ maxNameLen boolDocs) ∧
    (∃ s : String,
      dataRow boolDocs 1 =
        "1" ++ " | " ++ s ++ (" | " ++ ("true" ++ "\n")) ∧
      s = "true" ++ repeatStr " " (maxNameLen boolDocs - "true".length) ∧
      s.length = maxNameLen boolDocs) :=
  ⟨by decide, c9_name_right_padded_amended boolDocs 1 (by decide)⟩

/-- C10: the bool pattern decode never fails — on every bit slice with at
least one element it returns `Ok` of the element at position 0, ignoring
all other positions; no error is ever produced. -/
theorem c10_bool_decode_head (b : Bool) (rest : List Bool) :
    bool_decode (b :: rest) () = some (Except.ok b) := by
  simp [bool_decode]

end Bittwiddler
